import Mathlib

/-!
Shallow embedding of the structured linear-map layers (`linear.py`) and the
simulators (`neuromancer/simulators.py`) of the repository, together with
theorems settling the spec claims about them.

Conventions: PyTorch float tensors are modelled over `ℝ`; a batched 2-D tensor
of shape `bs × d` becomes a function `Fin bs → Fin d → ℝ`.  Python dicts of
named sequences become association lists `List (String × _)`.
-/

/-- `torch.sigmoid`: `1 / (1 + exp (-x))`. -/
noncomputable def sigmoid (x : ℝ) : ℝ := 1 / (1 + Real.exp (-x))

theorem sigmoid_pos (x : ℝ) : 0 < sigmoid x := by
  unfold sigmoid
  positivity

theorem sigmoid_lt_one (x : ℝ) : sigmoid x < 1 := by
  unfold sigmoid
  rw [div_lt_one (by positivity)]
  linarith [Real.exp_pos (-x)]

theorem sigmoid_zero : sigmoid 0 = 1 / 2 := by
  unfold sigmoid
  rw [neg_zero, Real.exp_zero]
  norm_num

namespace SpectralLinear

/-- Derived attribute `self.r = (sigma_max - sigma_min) / 2` from `__init__`. -/
noncomputable def r (sigma_min sigma_max : ℝ) : ℝ := (sigma_max - sigma_min) / 2

/-- Derived attribute `self.sigma_mean = sigma_min + self.r` from `__init__`. -/
noncomputable def sigma_mean (sigma_min sigma_max : ℝ) : ℝ :=
  sigma_min + r sigma_min sigma_max

/-- The bounded singular values
`sigmas = 2 * self.r * (torch.sigmoid(self.p) - 0.5) + self.sigma_mean`
(first line of `Sigma`); the parameter vector `p` has length
`nsigma = min insize outsize`, extra indices are never read. -/
noncomputable def sigmas (sigma_min sigma_max : ℝ) (p : ℕ → ℝ) (i : ℕ) : ℝ :=
  2 * r sigma_min sigma_max * (sigmoid (p i) - 0.5) + sigma_mean sigma_min sigma_max

/-- `SpectralLinear.Sigma`:
`torch.diag(torch.cat([sigmas, torch.zeros(abs(insize - outsize))]))`
sliced as `square_matrix[:insize, :outsize]`.  The concatenated vector has
entry `sigmas i` for `i < min insize outsize` and `0` on the padding; `diag`
puts it on the diagonal of a `max × max` square matrix, and the slice keeps the
first `insize` rows and `outsize` columns. -/
noncomputable def Sigma (insize outsize : ℕ) (sigma_min sigma_max : ℝ) (p : ℕ → ℝ) :
    Fin insize → Fin outsize → ℝ :=
  let nsigma := min insize outsize
  let padded : ℕ → ℝ := fun i => if i < nsigma then sigmas sigma_min sigma_max p i else 0
  fun i j => if (i : ℕ) = (j : ℕ) then padded i else 0

end SpectralLinear

namespace PerronFrobeniusLinear

/-- `F.softmax(weight, dim=1)` as used in `effective_W`: rowwise
`exp (w i j) / ∑ k, exp (w i k)` (PyTorch's max-subtraction stabilization is
algebraically the identity). -/
noncomputable def softmax {n m : ℕ} (weight : Fin n → Fin m → ℝ) :
    Fin n → Fin m → ℝ :=
  fun i j => Real.exp (weight i j) / ∑ k, Real.exp (weight i k)

/-- First line of `effective_W`:
`s_clamped = sigma_max - (sigma_max - sigma_min) * torch.sigmoid(self.scaling)`,
an elementwise expression over the `insize × outsize` parameter matrix
`scaling`. -/
noncomputable def s_clamped {n m : ℕ} (sigma_min sigma_max : ℝ)
    (scaling : Fin n → Fin m → ℝ) : Fin n → Fin m → ℝ :=
  fun i j => sigma_max - (sigma_max - sigma_min) * sigmoid (scaling i j)

/-- `PerronFrobeniusLinear.effective_W`:
`w_sofmax = s_clamped * F.softmax(self.weight, dim=1)` (elementwise product). -/
noncomputable def effective_W {n m : ℕ} (sigma_min sigma_max : ℝ)
    (scaling weight : Fin n → Fin m → ℝ) : Fin n → Fin m → ℝ :=
  fun i j => s_clamped sigma_min sigma_max scaling i j * softmax weight i j

/-- Row sum of a matrix, the observable the Perron-Frobenius claims are
about. -/
noncomputable def rowSum {n m : ℕ} (W : Fin n → Fin m → ℝ) (i : Fin n) : ℝ :=
  ∑ j, W i j

theorem softmax_pos {n m : ℕ} (weight : Fin n → Fin m → ℝ) (i : Fin n)
    (j : Fin m) : 0 < softmax weight i j := by
  unfold softmax
  have hd : 0 < ∑ k, Real.exp (weight i k) :=
    Finset.sum_pos (fun k _ => Real.exp_pos _) ⟨j, Finset.mem_univ j⟩
  exact div_pos (Real.exp_pos _) hd

theorem softmax_sum_one {n m : ℕ} (weight : Fin n → Fin m → ℝ) (i : Fin n)
    (hm : 0 < m) : ∑ j, softmax weight i j = 1 := by
  unfold softmax
  have hd : (0 : ℝ) < ∑ k, Real.exp (weight i k) :=
    Finset.sum_pos (fun k _ => Real.exp_pos _) ⟨⟨0, hm⟩, Finset.mem_univ _⟩
  rw [← Finset.sum_div, div_self hd.ne']

theorem s_clamped_bounds {n m : ℕ} (sigma_min sigma_max : ℝ)
    (hσ : sigma_min ≤ sigma_max) (scaling : Fin n → Fin m → ℝ) (i : Fin n)
    (j : Fin m) :
    sigma_min ≤ s_clamped sigma_min sigma_max scaling i j
      ∧ s_clamped sigma_min sigma_max scaling i j ≤ sigma_max := by
  unfold s_clamped
  constructor
  · nlinarith [sigmoid_lt_one (scaling i j)]
  · nlinarith [sigmoid_pos (scaling i j)]

end PerronFrobeniusLinear

/-- C1: for `sigma_min ≤ sigma_max` and any parameter vector `p`,
`SpectralLinear.Sigma()` is the `insize × outsize` matrix whose diagonal
entries `(i, i)` for `i < min insize outsize` are the bounded singular values
`2 * r * (sigmoid (p i) - 0.5) + sigma_mean`, each lying in
`[sigma_min, sigma_max]`, and whose other entries are zero (a diagonal entry of
the sliced matrix automatically has index below `min insize outsize`, so in the
square case the result is a square diagonal matrix with no padding). -/
theorem C1_Sigma_shape_and_bounds (insize outsize : ℕ) (sigma_min sigma_max : ℝ)
    (hσ : sigma_min ≤ sigma_max) (p : ℕ → ℝ) :
    (∀ (i : Fin insize) (j : Fin outsize), (i : ℕ) = (j : ℕ) →
      SpectralLinear.Sigma insize outsize sigma_min sigma_max p i j
          = 2 * SpectralLinear.r sigma_min sigma_max * (sigmoid (p i) - 0.5)
              + SpectralLinear.sigma_mean sigma_min sigma_max
        ∧ sigma_min ≤ SpectralLinear.Sigma insize outsize sigma_min sigma_max p i j
        ∧ SpectralLinear.Sigma insize outsize sigma_min sigma_max p i j ≤ sigma_max)
    ∧ (∀ (i : Fin insize) (j : Fin outsize), (i : ℕ) ≠ (j : ℕ) →
      SpectralLinear.Sigma insize outsize sigma_min sigma_max p i j = 0) := by
  have hr : 0 ≤ SpectralLinear.r sigma_min sigma_max := by
    unfold SpectralLinear.r; linarith
  constructor
  · intro i j hij
    have hi : (i : ℕ) < min insize outsize :=
      lt_min i.isLt (by rw [hij]; exact j.isLt)
    have hval : SpectralLinear.Sigma insize outsize sigma_min sigma_max p i j
        = 2 * SpectralLinear.r sigma_min sigma_max * (sigmoid (p i) - 0.5)
            + SpectralLinear.sigma_mean sigma_min sigma_max := by
      simp [SpectralLinear.Sigma, SpectralLinear.sigmas, hij, hi]
    refine ⟨hval, ?_, ?_⟩ <;> rw [hval] <;> unfold SpectralLinear.sigma_mean
    · nlinarith [sigmoid_pos (p i), mul_nonneg hr (sigmoid_pos (p i)).le]
    · have h2r : 2 * SpectralLinear.r sigma_min sigma_max = sigma_max - sigma_min := by
        unfold SpectralLinear.r; ring
      nlinarith [sigmoid_lt_one (p i)]
  · intro i j hij
    simp [SpectralLinear.Sigma, hij]

/-- Witness for C1: at `insize = outsize = 1`, `sigma_min = sigma_max = 1`,
`p = 0`, the hypothesis `1 ≤ 1` holds and the single diagonal entry equals the
bounded singular value and lies in `[1, 1]`. -/
theorem C1_Sigma_shape_and_bounds_witness :
    (1 : ℝ) ≤ 1
    ∧ SpectralLinear.Sigma 1 1 1 1 (fun _ => 0) 0 0
        = 2 * SpectralLinear.r 1 1 * (sigmoid 0 - 0.5) + SpectralLinear.sigma_mean 1 1
    ∧ (1 : ℝ) ≤ SpectralLinear.Sigma 1 1 1 1 (fun _ => 0) 0 0
    ∧ SpectralLinear.Sigma 1 1 1 1 (fun _ => 0) 0 0 ≤ 1 :=
  ⟨le_refl 1,
    (C1_Sigma_shape_and_bounds 1 1 1 1 (le_refl 1) (fun _ => 0)).1 0 0 rfl⟩

/-- Counterexample for C2 as stated: with `sigma_min = 0`, `sigma_max = 1`,
one row, two columns, `weight = 0` and `scaling = [[0, 1]]`, the row sum of
`effective_W()` differs from the formula
`sigma_max - (sigma_max - sigma_min) * sigmoid(scaling[i,j])` evaluated at
either entry of the row: no single scalar `sigma` obtained from that formula
equals the row sum, because `scaling` varies within the row. -/
theorem C2_rowsum_counterexample :
    PerronFrobeniusLinear.rowSum
        (PerronFrobeniusLinear.effective_W 0 1
          (fun (_ : Fin 1) (j : Fin 2) => ((j : ℕ) : ℝ)) (fun _ _ => 0)) 0
      ≠ PerronFrobeniusLinear.s_clamped 0 1
          (fun (_ : Fin 1) (j : Fin 2) => ((j : ℕ) : ℝ)) 0 0
    ∧ PerronFrobeniusLinear.rowSum
        (PerronFrobeniusLinear.effective_W 0 1
          (fun (_ : Fin 1) (j : Fin 2) => ((j : ℕ) : ℝ)) (fun _ _ => 0)) 0
      ≠ PerronFrobeniusLinear.s_clamped 0 1
          (fun (_ : Fin 1) (j : Fin 2) => ((j : ℕ) : ℝ)) 0 1 := by
  have hσ1 : (1 : ℝ) / 2 < sigmoid 1 := by
    have he : Real.exp (-1) < 1 := by
      rw [← Real.exp_zero]
      exact Real.exp_lt_exp.mpr (by norm_num)
    have hepos := Real.exp_pos (-1)
    unfold sigmoid
    rw [div_lt_div_iff₀ (by norm_num) (by positivity)]
    linarith
  have hcalc : PerronFrobeniusLinear.rowSum
      (PerronFrobeniusLinear.effective_W 0 1
        (fun (_ : Fin 1) (j : Fin 2) => ((j : ℕ) : ℝ)) (fun _ _ => 0)) 0
      = 3 / 4 - sigmoid 1 / 2 := by
    simp [PerronFrobeniusLinear.rowSum, PerronFrobeniusLinear.effective_W,
      PerronFrobeniusLinear.s_clamped, PerronFrobeniusLinear.softmax,
      Fin.sum_univ_two, Real.exp_zero, sigmoid_zero]
    ring
  constructor
  · rw [hcalc]
    simp only [PerronFrobeniusLinear.s_clamped]
    norm_num [sigmoid_zero]
    intro h
    nlinarith
  · rw [hcalc]
    simp only [PerronFrobeniusLinear.s_clamped]
    norm_num
    intro h
    nlinarith

/-- C2 amended: for `sigma_min ≤ sigma_max` and a nonempty row (`0 < m`),
every row sum of `PerronFrobeniusLinear.effective_W()` lies in
`[sigma_min, sigma_max]`; the row sum is the softmax-weighted average of the
entrywise values `sigma_max - (sigma_max - sigma_min) * sigmoid(scaling[i,j])`
rather than a single scalar, and it equals that scalar
`sigma_max - (sigma_max - sigma_min) * sigmoid c` exactly when all scaling
entries of the row share the value `c`. -/
theorem C2_rowsum_bounds (n m : ℕ) (hm : 0 < m) (sigma_min sigma_max : ℝ)
    (hσ : sigma_min ≤ sigma_max) (scaling weight : Fin n → Fin m → ℝ)
    (i : Fin n) :
    sigma_min ≤ PerronFrobeniusLinear.rowSum
        (PerronFrobeniusLinear.effective_W sigma_min sigma_max scaling weight) i
    ∧ PerronFrobeniusLinear.rowSum
        (PerronFrobeniusLinear.effective_W sigma_min sigma_max scaling weight) i
      ≤ sigma_max
    ∧ PerronFrobeniusLinear.rowSum
        (PerronFrobeniusLinear.effective_W sigma_min sigma_max scaling weight) i
      = ∑ j, PerronFrobeniusLinear.s_clamped sigma_min sigma_max scaling i j
          * PerronFrobeniusLinear.softmax weight i j
    ∧ ∀ c : ℝ, (∀ j, scaling i j = c) →
        PerronFrobeniusLinear.rowSum
          (PerronFrobeniusLinear.effective_W sigma_min sigma_max scaling weight) i
        = sigma_max - (sigma_max - sigma_min) * sigmoid c := by
  have hsum : PerronFrobeniusLinear.rowSum
      (PerronFrobeniusLinear.effective_W sigma_min sigma_max scaling weight) i
      = ∑ j, PerronFrobeniusLinear.s_clamped sigma_min sigma_max scaling i j
          * PerronFrobeniusLinear.softmax weight i j := rfl
  have hsoft1 := PerronFrobeniusLinear.softmax_sum_one weight i hm
  refine ⟨?_, ?_, hsum, ?_⟩
  · rw [hsum]
    calc sigma_min = ∑ j, sigma_min * PerronFrobeniusLinear.softmax weight i j := by
          rw [← Finset.mul_sum, hsoft1, mul_one]
      _ ≤ _ := by
          apply Finset.sum_le_sum
          intro j _
          exact mul_le_mul_of_nonneg_right
            (PerronFrobeniusLinear.s_clamped_bounds sigma_min sigma_max hσ scaling i j).1
            (PerronFrobeniusLinear.softmax_pos weight i j).le
  · rw [hsum]
    calc ∑ j, PerronFrobeniusLinear.s_clamped sigma_min sigma_max scaling i j
          * PerronFrobeniusLinear.softmax weight i j
        ≤ ∑ j, sigma_max * PerronFrobeniusLinear.softmax weight i j := by
          apply Finset.sum_le_sum
          intro j _
          exact mul_le_mul_of_nonneg_right
            (PerronFrobeniusLinear.s_clamped_bounds sigma_min sigma_max hσ scaling i j).2
            (PerronFrobeniusLinear.softmax_pos weight i j).le
      _ = sigma_max := by rw [← Finset.mul_sum, hsoft1, mul_one]
  · intro c hc
    rw [hsum]
    have : ∀ j : Fin m, PerronFrobeniusLinear.s_clamped sigma_min sigma_max scaling i j
        = sigma_max - (sigma_max - sigma_min) * sigmoid c := by
      intro j
      unfold PerronFrobeniusLinear.s_clamped
      rw [hc j]
    calc ∑ j, PerronFrobeniusLinear.s_clamped sigma_min sigma_max scaling i j
          * PerronFrobeniusLinear.softmax weight i j
        = ∑ j, (sigma_max - (sigma_max - sigma_min) * sigmoid c)
            * PerronFrobeniusLinear.softmax weight i j := by
          apply Finset.sum_congr rfl
          intro j _
          rw [this j]
      _ = sigma_max - (sigma_max - sigma_min) * sigmoid c := by
          rw [← Finset.mul_sum, hsoft1, mul_one]

/-- Witness for C2 amended: one row, one column, `sigma_min = 0`,
`sigma_max = 1`, zero parameters; the row sum is bounded by `[0, 1]` and, the
scaling row being constantly `0`, equals `1 - sigmoid 0`. -/
theorem C2_rowsum_bounds_witness :
    (0 : ℝ) ≤ PerronFrobeniusLinear.rowSum
        (PerronFrobeniusLinear.effective_W (n := 1) (m := 1) 0 1
          (fun _ _ => 0) (fun _ _ => 0)) 0
    ∧ PerronFrobeniusLinear.rowSum
        (PerronFrobeniusLinear.effective_W (n := 1) (m := 1) 0 1
          (fun _ _ => 0) (fun _ _ => 0)) 0 ≤ 1
    ∧ PerronFrobeniusLinear.rowSum
        (PerronFrobeniusLinear.effective_W (n := 1) (m := 1) 0 1
          (fun _ _ => 0) (fun _ _ => 0)) 0
      = 1 - (1 - 0) * sigmoid 0 := by
  obtain ⟨h1, h2, _, h4⟩ :=
    C2_rowsum_bounds 1 1 (by decide) 0 1 (by norm_num)
      (fun _ _ => 0) (fun _ _ => 0) 0
  exact ⟨h1, h2, h4 0 (fun _ => rfl)⟩

/-- C10: for `0 ≤ sigma_min < sigma_max` and any parameter matrices, every
entry of `PerronFrobeniusLinear.effective_W()` is strictly positive; indeed the
softmax factor is strictly positive and the entrywise scaling `s_clamped` lies
strictly between `sigma_min` and `sigma_max`. -/
theorem C10_effective_W_pos (n m : ℕ) (sigma_min sigma_max : ℝ)
    (h0 : 0 ≤ sigma_min) (hσ : sigma_min < sigma_max)
    (scaling weight : Fin n → Fin m → ℝ) (i : Fin n) (j : Fin m) :
    0 < PerronFrobeniusLinear.effective_W sigma_min sigma_max scaling weight i j
    ∧ 0 < PerronFrobeniusLinear.softmax weight i j
    ∧ sigma_min < PerronFrobeniusLinear.s_clamped sigma_min sigma_max scaling i j
    ∧ PerronFrobeniusLinear.s_clamped sigma_min sigma_max scaling i j < sigma_max := by
  have hsoft := PerronFrobeniusLinear.softmax_pos weight i j
  have hlow : sigma_min < PerronFrobeniusLinear.s_clamped sigma_min sigma_max scaling i j := by
    unfold PerronFrobeniusLinear.s_clamped
    nlinarith [sigmoid_lt_one (scaling i j)]
  have hhigh : PerronFrobeniusLinear.s_clamped sigma_min sigma_max scaling i j < sigma_max := by
    unfold PerronFrobeniusLinear.s_clamped
    nlinarith [sigmoid_pos (scaling i j)]
  refine ⟨?_, hsoft, hlow, hhigh⟩
  have : 0 < PerronFrobeniusLinear.s_clamped sigma_min sigma_max scaling i j :=
    lt_of_le_of_lt h0 hlow
  exact mul_pos this hsoft

/-- Witness for C10: at `sigma_min = 0 ≤ sigma_max = 1` with zero parameters,
the single entry of `effective_W()` is strictly positive. -/
theorem C10_effective_W_pos_witness :
    0 < PerronFrobeniusLinear.effective_W (n := 1) (m := 1) 0 1
        (fun _ _ => 0) (fun _ _ => 0) 0 0 :=
  (C10_effective_W_pos 1 1 0 1 (by norm_num) (by norm_num)
    (fun _ _ => 0) (fun _ _ => 0) 0 0).1

namespace SpectralLinear

/-- The index set of the Python slice `[-k:]` on a length-`d` axis for
`k ≥ 1`: the last `k` positions (all positions when `k ≥ d`). -/
def lastCols (d k : ℕ) : Finset (Fin d) :=
  Finset.univ.filter (fun j => d - k ≤ (j : ℕ))

/-- The scalar
`alpha = 2 * torch.matmul(x[:, -k:], u[-k:]) / (u[-k:] * u[-k:]).sum()`
from `Hprod`, for one batch row `xr`. -/
noncomputable def alpha {d : ℕ} (xr u : Fin d → ℝ) (k : ℕ) : ℝ :=
  2 * (∑ j ∈ lastCols d k, xr j * u j) / ∑ j ∈ lastCols d k, u j * u j

/-- One batch row of `Hprod`.  In the source, when `k < x.shape[1]` the result
is `torch.cat([x[:, :-k], x[:, -k:] - alpha ⊗ u[-k:]], dim=1)`; columns below
`d - k` come from the untouched prefix and columns from `d - k` on come from
the updated block, whose entry at column `j` is `x[:, j] - alpha * u[j]`.  When
`k >= x.shape[1]` the whole row is updated (`x[:, -k:]` is all of `x`). -/
noncomputable def rowHprod {d : ℕ} (u : Fin d → ℝ) (k : ℕ) (xr : Fin d → ℝ) :
    Fin d → ℝ :=
  if k < d then
    fun j => if (j : ℕ) < d - k then xr j else xr j - alpha xr u k * u j
  else
    fun j => xr j - alpha xr u k * u j

/-- `SpectralLinear.Hprod`: the slice arithmetic, the dot product behind
`alpha` and the rank-one update all act on each batch row independently. -/
noncomputable def Hprod {bs d : ℕ} (x : Fin bs → Fin d → ℝ) (u : Fin d → ℝ)
    (k : ℕ) : Fin bs → Fin d → ℝ :=
  fun b => rowHprod u k (x b)

/-- `SpectralLinear.Umultiply`: `for i in range(0, n_U_reflectors):
x = self.Hprod(x, self.U[i], self.insize - i)`. -/
noncomputable def Umultiply {bs : ℕ} (insize nU : ℕ) (U : ℕ → Fin insize → ℝ)
    (x : Fin bs → Fin insize → ℝ) : Fin bs → Fin insize → ℝ :=
  (List.range nU).foldl (fun acc i => Hprod acc (U i) (insize - i)) x

/-- `SpectralLinear.Vmultiply`: `for i in range(n_V_reflectors - 1, -1, -1):
x = self.Hprod(x, self.V[i], self.outsize - i)` (descending index order). -/
noncomputable def Vmultiply {bs : ℕ} (outsize nV : ℕ) (V : ℕ → Fin outsize → ℝ)
    (x : Fin bs → Fin outsize → ℝ) : Fin bs → Fin outsize → ℝ :=
  ((List.range nV).reverse).foldl (fun acc i => Hprod acc (V i) (outsize - i)) x

/-- `SpectralLinear.forward`: `x = self.Umultiply(x); x = torch.matmul(x,
self.Sigma()); x = self.Vmultiply(x); x += self.bias` (the bias parameter is
never `None` in the source, so the guard `if self.bias is not None` always
takes the add branch). -/
noncomputable def forward {bs : ℕ} (insize outsize nU nV : ℕ)
    (U : ℕ → Fin insize → ℝ) (V : ℕ → Fin outsize → ℝ)
    (sigma_min sigma_max : ℝ) (p : ℕ → ℝ) (bias : Fin outsize → ℝ)
    (x : Fin bs → Fin insize → ℝ) : Fin bs → Fin outsize → ℝ :=
  let x1 := Umultiply insize nU U x
  let x2 : Fin bs → Fin outsize → ℝ :=
    fun b j => ∑ i, x1 b i * Sigma insize outsize sigma_min sigma_max p i j
  let x3 := Vmultiply outsize nV V x2
  fun b j => x3 b j + bias j

/-- `SpectralLinear.effective_W`:
`self.forward(torch.eye(self.insize))`. -/
noncomputable def effective_W (insize outsize nU nV : ℕ)
    (U : ℕ → Fin insize → ℝ) (V : ℕ → Fin outsize → ℝ)
    (sigma_min sigma_max : ℝ) (p : ℕ → ℝ) (bias : Fin outsize → ℝ) :
    Fin insize → Fin outsize → ℝ :=
  forward insize outsize nU nV U V sigma_min sigma_max p bias
    (fun b i => if (b : ℕ) = (i : ℕ) then 1 else 0)

end SpectralLinear

/-- C3: for `1 ≤ k ≤ d`, `Hprod` leaves the first `d - k` columns of the
batched input unchanged and subtracts the outer product `alpha ⊗ u[-k:]` from
the last `k` columns, where
`alpha = 2 * (x[:, -k:] · u[-k:]) / ‖u[-k:]‖²` rowwise. -/
theorem C3_Hprod_frame (bs d k : ℕ) (hk1 : 1 ≤ k) (hkd : k ≤ d)
    (x : Fin bs → Fin d → ℝ) (u : Fin d → ℝ) :
    (∀ (b : Fin bs) (j : Fin d), (j : ℕ) < d - k →
      SpectralLinear.Hprod x u k b j = x b j)
    ∧ (∀ (b : Fin bs) (j : Fin d), d - k ≤ (j : ℕ) →
      SpectralLinear.Hprod x u k b j
        = x b j - SpectralLinear.alpha (x b) u k * u j)
    ∧ ∀ b : Fin bs, SpectralLinear.alpha (x b) u k
        = 2 * (∑ j ∈ SpectralLinear.lastCols d k, x b j * u j)
            / ∑ j ∈ SpectralLinear.lastCols d k, u j * u j := by
  refine ⟨?_, ?_, fun b => rfl⟩
  · intro b j hj
    unfold SpectralLinear.Hprod SpectralLinear.rowHprod
    rcases lt_or_eq_of_le hkd with hlt | heq
    · rw [if_pos hlt, if_pos hj]
    · exfalso
      rw [heq, Nat.sub_self] at hj
      exact Nat.not_lt_zero _ hj
  · intro b j hj
    unfold SpectralLinear.Hprod SpectralLinear.rowHprod
    rcases lt_or_eq_of_le hkd with hlt | heq
    · rw [if_pos hlt, if_neg (Nat.not_lt.mpr hj)]
    · rw [if_neg (by rw [heq]; exact lt_irrefl d)]

/-- Witness for C3: at `bs = 1`, `d = 2`, `k = 1`, the all-ones input and
reflector, the hypotheses `1 ≤ 1` and `1 ≤ 2` hold; column `0` is unchanged
and column `1` receives the rank-one update. -/
theorem C3_Hprod_frame_witness :
    (1 ≤ 1 ∧ 1 ≤ 2)
    ∧ SpectralLinear.Hprod (fun (_ : Fin 1) (_ : Fin 2) => (1 : ℝ))
        (fun _ => 1) 1 0 0 = (fun (_ : Fin 1) (_ : Fin 2) => (1 : ℝ)) 0 0
    ∧ SpectralLinear.Hprod (fun (_ : Fin 1) (_ : Fin 2) => (1 : ℝ))
        (fun _ => 1) 1 0 1
      = (fun (_ : Fin 1) (_ : Fin 2) => (1 : ℝ)) 0 1
          - SpectralLinear.alpha ((fun (_ : Fin 1) (_ : Fin 2) => (1 : ℝ)) 0)
              (fun _ => 1) 1 * (fun (_ : Fin 2) => (1 : ℝ)) 1 :=
  ⟨⟨le_refl 1, by norm_num⟩,
    (C3_Hprod_frame 1 2 1 (le_refl 1) (by norm_num)
        (fun _ _ => 1) (fun _ => 1)).1 0 0 (by decide),
    (C3_Hprod_frame 1 2 1 (le_refl 1) (by norm_num)
        (fun _ _ => 1) (fun _ => 1)).2.1 0 1 (by decide)⟩

namespace SpectralLinear

/-- Row versions of the batched operations: each batched operation of
`SpectralLinear` acts on every batch row independently, so the whole pipeline
is determined by its action on a single row. -/
noncomputable def rowUmultiply (insize nU : ℕ) (U : ℕ → Fin insize → ℝ)
    (xr : Fin insize → ℝ) : Fin insize → ℝ :=
  (List.range nU).foldl (fun a i => rowHprod (U i) (insize - i) a) xr

/-- Single-row version of `Vmultiply`. -/
noncomputable def rowVmultiply (outsize nV : ℕ) (V : ℕ → Fin outsize → ℝ)
    (xr : Fin outsize → ℝ) : Fin outsize → ℝ :=
  ((List.range nV).reverse).foldl (fun a i => rowHprod (V i) (outsize - i) a) xr

/-- Single-row version of `torch.matmul(x, self.Sigma())`. -/
noncomputable def rowSigmaMul (insize outsize : ℕ) (sigma_min sigma_max : ℝ)
    (p : ℕ → ℝ) (xr : Fin insize → ℝ) : Fin outsize → ℝ :=
  fun j => ∑ i, xr i * Sigma insize outsize sigma_min sigma_max p i j

/-- Single-row version of `forward` without the bias term. -/
noncomputable def rowPipeline (insize outsize nU nV : ℕ)
    (U : ℕ → Fin insize → ℝ) (V : ℕ → Fin outsize → ℝ)
    (sigma_min sigma_max : ℝ) (p : ℕ → ℝ) (xr : Fin insize → ℝ) :
    Fin outsize → ℝ :=
  rowVmultiply outsize nV V
    (rowSigmaMul insize outsize sigma_min sigma_max p
      (rowUmultiply insize nU U xr))

theorem foldl_rowwise {B ι α : Type} (s : ι → α → α) (l : List ι) (x : B → α)
    (b : B) :
    l.foldl (fun acc i => fun q => s i (acc q)) x b
      = l.foldl (fun a i => s i a) (x b) := by
  induction l generalizing x with
  | nil => rfl
  | cons i t ih => exact ih (fun q => s i (x q))

theorem Umultiply_apply {bs : ℕ} (insize nU : ℕ) (U : ℕ → Fin insize → ℝ)
    (x : Fin bs → Fin insize → ℝ) (b : Fin bs) :
    Umultiply insize nU U x b = rowUmultiply insize nU U (x b) := by
  simp only [Umultiply, Hprod, rowUmultiply]
  exact foldl_rowwise (fun i a => rowHprod (U i) (insize - i) a) (List.range nU) x b

theorem Vmultiply_apply {bs : ℕ} (outsize nV : ℕ) (V : ℕ → Fin outsize → ℝ)
    (x : Fin bs → Fin outsize → ℝ) (b : Fin bs) :
    Vmultiply outsize nV V x b = rowVmultiply outsize nV V (x b) := by
  simp only [Vmultiply, Hprod, rowVmultiply]
  exact foldl_rowwise (fun i a => rowHprod (V i) (outsize - i) a)
    ((List.range nV).reverse) x b

theorem forward_apply {bs : ℕ} (insize outsize nU nV : ℕ)
    (U : ℕ → Fin insize → ℝ) (V : ℕ → Fin outsize → ℝ)
    (sigma_min sigma_max : ℝ) (p : ℕ → ℝ) (bias : Fin outsize → ℝ)
    (x : Fin bs → Fin insize → ℝ) (b : Fin bs) (j : Fin outsize) :
    forward insize outsize nU nV U V sigma_min sigma_max p bias x b j
      = rowPipeline insize outsize nU nV U V sigma_min sigma_max p (x b) j
          + bias j := by
  unfold forward rowPipeline
  have hx2 : (fun (b : Fin bs) (j : Fin outsize) =>
        ∑ i, Umultiply insize nU U x b i
          * Sigma insize outsize sigma_min sigma_max p i j) b
      = rowSigmaMul insize outsize sigma_min sigma_max p
          (rowUmultiply insize nU U (x b)) := by
    funext j
    simp only [rowSigmaMul, Umultiply_apply]
  have hv := Vmultiply_apply outsize nV V
      (fun (b : Fin bs) (j : Fin outsize) =>
        ∑ i, Umultiply insize nU U x b i
          * Sigma insize outsize sigma_min sigma_max p i j) b
  simp only [hx2] at hv
  simp only [hv]

end SpectralLinear

namespace SpectralLinear

theorem alpha_add {d : ℕ} (u : Fin d → ℝ) (k : ℕ) (x y : Fin d → ℝ) :
    alpha (x + y) u k = alpha x u k + alpha y u k := by
  unfold alpha
  have h : ∑ j ∈ lastCols d k, (x + y) j * u j
      = (∑ j ∈ lastCols d k, x j * u j) + ∑ j ∈ lastCols d k, y j * u j := by
    rw [← Finset.sum_add_distrib]
    apply Finset.sum_congr rfl
    intro j _
    simp [add_mul]
  rw [h, mul_add, add_div]

theorem alpha_smul {d : ℕ} (u : Fin d → ℝ) (k : ℕ) (c : ℝ) (x : Fin d → ℝ) :
    alpha (c • x) u k = c * alpha x u k := by
  unfold alpha
  have h : ∑ j ∈ lastCols d k, (c • x) j * u j
      = c * ∑ j ∈ lastCols d k, x j * u j := by
    rw [Finset.mul_sum]
    apply Finset.sum_congr rfl
    intro j _
    simp [mul_assoc]
  rw [h]
  ring

theorem rowHprod_add {d : ℕ} (u : Fin d → ℝ) (k : ℕ) (x y : Fin d → ℝ) :
    rowHprod u k (x + y) = rowHprod u k x + rowHprod u k y := by
  unfold rowHprod
  by_cases hk : k < d
  · simp only [if_pos hk]
    funext j
    by_cases hj : (j : ℕ) < d - k
    · simp [hj]
    · simp only [hj, if_false, Pi.add_apply, alpha_add]
      ring
  · simp only [if_neg hk]
    funext j
    simp only [Pi.add_apply, alpha_add]
    ring

theorem rowHprod_smul {d : ℕ} (u : Fin d → ℝ) (k : ℕ) (c : ℝ) (x : Fin d → ℝ) :
    rowHprod u k (c • x) = c • rowHprod u k x := by
  unfold rowHprod
  by_cases hk : k < d
  · simp only [if_pos hk]
    funext j
    by_cases hj : (j : ℕ) < d - k
    · simp [hj]
    · simp only [hj, if_false, Pi.smul_apply, smul_eq_mul, alpha_smul]
      ring
  · simp only [if_neg hk]
    funext j
    simp only [Pi.smul_apply, smul_eq_mul, alpha_smul]
    ring

theorem foldl_step_add {ι : Type} {d : ℕ} (s : ι → (Fin d → ℝ) → Fin d → ℝ)
    (hadd : ∀ i x y, s i (x + y) = s i x + s i y) (l : List ι) :
    ∀ x y : Fin d → ℝ,
      l.foldl (fun a i => s i a) (x + y)
        = l.foldl (fun a i => s i a) x + l.foldl (fun a i => s i a) y := by
  induction l with
  | nil => intro x y; rfl
  | cons i t ih =>
    intro x y
    simp only [List.foldl_cons]
    rw [hadd]
    exact ih _ _

theorem foldl_step_smul {ι : Type} {d : ℕ} (s : ι → (Fin d → ℝ) → Fin d → ℝ)
    (c : ℝ) (hsmul : ∀ i x, s i (c • x) = c • s i x) (l : List ι) :
    ∀ x : Fin d → ℝ,
      l.foldl (fun a i => s i a) (c • x) = c • l.foldl (fun a i => s i a) x := by
  induction l with
  | nil => intro x; rfl
  | cons i t ih =>
    intro x
    simp only [List.foldl_cons]
    rw [hsmul]
    exact ih _

theorem rowSigmaMul_add (insize outsize : ℕ) (sigma_min sigma_max : ℝ)
    (p : ℕ → ℝ) (x y : Fin insize → ℝ) :
    rowSigmaMul insize outsize sigma_min sigma_max p (x + y)
      = rowSigmaMul insize outsize sigma_min sigma_max p x
          + rowSigmaMul insize outsize sigma_min sigma_max p y := by
  funext j
  simp [rowSigmaMul, add_mul, Finset.sum_add_distrib]

theorem rowSigmaMul_smul (insize outsize : ℕ) (sigma_min sigma_max : ℝ)
    (p : ℕ → ℝ) (c : ℝ) (x : Fin insize → ℝ) :
    rowSigmaMul insize outsize sigma_min sigma_max p (c • x)
      = c • rowSigmaMul insize outsize sigma_min sigma_max p x := by
  funext j
  simp [rowSigmaMul, Finset.mul_sum, mul_assoc]

theorem rowPipeline_isLinearMap (insize outsize nU nV : ℕ)
    (U : ℕ → Fin insize → ℝ) (V : ℕ → Fin outsize → ℝ)
    (sigma_min sigma_max : ℝ) (p : ℕ → ℝ) :
    IsLinearMap ℝ (rowPipeline insize outsize nU nV U V sigma_min sigma_max p) := by
  constructor
  · intro x y
    unfold rowPipeline rowUmultiply rowVmultiply
    rw [foldl_step_add (fun i a => rowHprod (U i) (insize - i) a)
      (fun i a b => rowHprod_add (U i) (insize - i) a b) (List.range nU) x y]
    rw [rowSigmaMul_add]
    exact foldl_step_add (fun i a => rowHprod (V i) (outsize - i) a)
      (fun i a b => rowHprod_add (V i) (outsize - i) a b)
      ((List.range nV).reverse) _ _
  · intro c x
    unfold rowPipeline rowUmultiply rowVmultiply
    rw [foldl_step_smul (fun i a => rowHprod (U i) (insize - i) a) c
      (fun i a => rowHprod_smul (U i) (insize - i) c a) (List.range nU) x]
    rw [rowSigmaMul_smul]
    exact foldl_step_smul (fun i a => rowHprod (V i) (outsize - i) a) c
      (fun i a => rowHprod_smul (V i) (outsize - i) c a)
      ((List.range nV).reverse) _

end SpectralLinear

/-- C9: for a `SpectralLinear` instance with an all-zero bias vector (and
reflector counts within the feature sizes, so the active reflector length
`insize - i` resp. `outsize - i` stays positive as in the source loops),
`forward` is the linear map `x ↦ x · effective_W()`: every entry of the
batched output is the dot product of the corresponding input row with a column
of `effective_W()`, the matrix obtained by forwarding the identity matrix. -/
theorem C9_forward_is_matmul_effective_W (insize outsize nU nV : ℕ)
    (hU : nU ≤ insize) (hV : nV ≤ outsize)
    (U : ℕ → Fin insize → ℝ) (V : ℕ → Fin outsize → ℝ)
    (sigma_min sigma_max : ℝ) (p : ℕ → ℝ) (bias : Fin outsize → ℝ)
    (hbias : bias = fun _ => 0) (bs : ℕ) (x : Fin bs → Fin insize → ℝ)
    (b : Fin bs) (j : Fin outsize) :
    SpectralLinear.forward insize outsize nU nV U V sigma_min sigma_max p bias
        x b j
      = ∑ i, x b i * SpectralLinear.effective_W insize outsize nU nV U V
          sigma_min sigma_max p bias i j := by
  subst hbias
  have hlin := SpectralLinear.rowPipeline_isLinearMap insize outsize nU nV U V
    sigma_min sigma_max p
  have key := LinearMap.pi_apply_eq_sum_univ (IsLinearMap.mk' _ hlin) (x b)
  have hfwd := SpectralLinear.forward_apply insize outsize nU nV U V
    sigma_min sigma_max p (fun _ => 0) x b j
  simp only [add_zero] at hfwd
  have hW : ∀ i : Fin insize,
      SpectralLinear.effective_W insize outsize nU nV U V sigma_min sigma_max
          p (fun _ => 0) i j
        = SpectralLinear.rowPipeline insize outsize nU nV U V sigma_min
            sigma_max p (fun q => if i = q then (1 : ℝ) else 0) j := by
    intro i
    unfold SpectralLinear.effective_W
    rw [SpectralLinear.forward_apply]
    have hbasis : (fun q : Fin insize =>
        if (i : ℕ) = (q : ℕ) then (1 : ℝ) else 0)
        = fun q : Fin insize => if i = q then (1 : ℝ) else 0 := by
      funext q
      by_cases h : (i : ℕ) = (q : ℕ)
      · rw [if_pos h, if_pos (Fin.ext h)]
      · rw [if_neg h, if_neg (fun hh => h (congrArg Fin.val hh))]
    simp only [hbasis]
    simp
  rw [hfwd]
  have hFx : SpectralLinear.rowPipeline insize outsize nU nV U V sigma_min
      sigma_max p (x b) j
      = (∑ i, x b i • (IsLinearMap.mk' _ hlin)
          fun q => if i = q then (1 : ℝ) else 0) j := by
    rw [← key]; rfl
  rw [hFx, Finset.sum_apply]
  apply Finset.sum_congr rfl
  intro i _
  rw [hW i]
  simp [IsLinearMap.mk'_apply]

/-- Witness for C9: a one-dimensional instance with no reflectors, zero bias
and the all-ones input; the hypotheses `0 ≤ 1` and `bias = 0` hold and the
forward output equals the input row times `effective_W()`. -/
theorem C9_forward_is_matmul_effective_W_witness :
    SpectralLinear.forward 1 1 0 0 (fun _ _ => 0) (fun _ _ => 0) 1 1
        (fun _ => 0) (fun _ => 0) (fun (_ : Fin 1) (_ : Fin 1) => (1 : ℝ)) 0 0
      = ∑ i, (fun (_ : Fin 1) (_ : Fin 1) => (1 : ℝ)) 0 i
          * SpectralLinear.effective_W 1 1 0 0 (fun _ _ => 0) (fun _ _ => 0)
              1 1 (fun _ => 0) (fun _ => 0) i 0 :=
  C9_forward_is_matmul_effective_W 1 1 0 0 (by norm_num) (by norm_num)
    (fun _ _ => 0) (fun _ _ => 0) 1 1 (fun _ => 0) (fun _ => 0) rfl 1
    (fun _ _ => 1) 0 0

namespace LinearBase

/-- `LinearBase.regularization_error`: `return 0.0`.  `Linear`,
`NonnegativeLinear`, `PerronFrobeniusLinear`, `SVDLinear` and `SpectralLinear`
do not override it, so they all return this default. -/
def regularization_error : ℝ := 0

end LinearBase

namespace LassoLinear

/-- `LassoLinear.effective_W`:
`F.relu(self.u_param) - F.relu(self.v_param)` (relu is `max · 0`). -/
noncomputable def effective_W {n m : ℕ} (u_param v_param : Fin n → Fin m → ℝ) :
    Fin n → Fin m → ℝ :=
  fun i j => max (u_param i j) 0 - max (v_param i j) 0

/-- `LassoLinear.regularization_error` as written in the source:
`return self.gamma*self.effective_W.norm(p=1)`.  `self.effective_W` without
call parentheses is the bound method object, and reading `.norm` on a method
raises `AttributeError`, so the call never returns a number. -/
def regularization_error_asWritten : Except String ℝ :=
  Except.error "AttributeError: function object has no attribute norm"

/-- `LassoLinear.regularization_error` as intended (the missing call
parentheses restored): `self.gamma * self.effective_W().norm(p=1)`, the scaled
entrywise 1-norm of the effective weight matrix. -/
noncomputable def regularization_error_intended {n m : ℕ} (gamma : ℝ)
    (u_param v_param : Fin n → Fin m → ℝ) : ℝ :=
  gamma * ∑ i, ∑ j, |effective_W u_param v_param i j|

end LassoLinear

/-- C8: the default `regularization_error` (inherited by `Linear`,
`NonnegativeLinear`, `PerronFrobeniusLinear`, `SVDLinear`, `SpectralLinear`)
returns the non-negative scalar `0`; but `LassoLinear.regularization_error`
as written raises `AttributeError` (missing call parentheses on
`self.effective_W`) instead of returning a scalar, so the claim fails on the
code for that variant.  The intended expression, with the call restored, is
non-negative whenever `gamma ≥ 0` (its default is `1.0`). -/
theorem C8_regularization_error (n m : ℕ) (gamma : ℝ) (hγ : 0 ≤ gamma)
    (u_param v_param : Fin n → Fin m → ℝ) :
    LinearBase.regularization_error = 0
    ∧ (0 : ℝ) ≤ LinearBase.regularization_error
    ∧ LassoLinear.regularization_error_asWritten
        = Except.error "AttributeError: function object has no attribute norm"
    ∧ 0 ≤ LassoLinear.regularization_error_intended gamma u_param v_param := by
  refine ⟨rfl, le_refl 0, rfl, ?_⟩
  unfold LassoLinear.regularization_error_intended
  apply mul_nonneg hγ
  apply Finset.sum_nonneg
  intro i _
  apply Finset.sum_nonneg
  intro j _
  exact abs_nonneg _

/-- Witness for C8: at `gamma = 1` (its default) and zero parameters the
hypothesis `0 ≤ 1` holds and the intended Lasso regularization error is
non-negative. -/
theorem C8_regularization_error_witness :
    (0 : ℝ) ≤ 1
    ∧ LinearBase.regularization_error = 0
    ∧ 0 ≤ LassoLinear.regularization_error_intended (n := 1) (m := 1) 1
        (fun _ _ => 0) (fun _ _ => 0) :=
  ⟨by norm_num,
    (C8_regularization_error 1 1 1 (by norm_num) (fun _ _ => 0) (fun _ _ => 0)).1,
    (C8_regularization_error 1 1 1 (by norm_num) (fun _ _ => 0) (fun _ _ => 0)).2.2.2⟩

namespace ClosedLoopSimulator

/-- The estimator submodel attributes read by `simulate`: its declared
`output_keys` and `window_size`. -/
structure Estimator where
  output_keys : List String
  window_size : ℕ

/-- The attribute access `self.estimator.output_keys` at the top of
`simulate` (`cl_keys = self.estimator.output_keys + ...`): it is performed
unconditionally, so it raises `AttributeError` when the estimator is
`None`. -/
def estimatorOutputKeys : Option Estimator → Except String (List String)
  | none => Except.error "AttributeError: NoneType object has no attribute output_keys"
  | some e => Except.ok e.output_keys

/-- The attribute access `self.estimator.window_size` in the `start_k`
computation of `simulate`, also performed unconditionally. -/
def estimatorWindowSize : Option Estimator → Except String ℕ
  | none => Except.error "AttributeError: NoneType object has no attribute window_size"
  | some e => Except.ok e.window_size

/-- Python `list.remove(key)`: drops the first occurrence of `key` and raises
`ValueError` when the key is absent. -/
def removeKey (l : List String) (key : String) : Except String (List String) :=
  if key ∈ l then Except.ok (l.erase key)
  else Except.error "ValueError: list.remove(x): x not in list"

/-- `ClosedLoopSimulator.append_data`: `for key in sim_data.keys():
sim_data[key].append(step_data[key])`.  Each per-step entry is a tensor whose
leading (time) axis is modelled as a `List α`. -/
def append_data {α : Type} (sim_data : List (String × List (List α)))
    (step_data : String → List α) : List (String × List (List α)) :=
  sim_data.map (fun kv => (kv.1, kv.2 ++ [step_data kv.1]))

/-- `ClosedLoopSimulator.simulate`.  The estimator, policy and emulator
sub-models are outside the embedded bookkeeping; `stepOut k` abstracts the
merged per-step dict `{**estim_out, **policy_out, **emulator_out}` at loop
index `k` as a total function from key to the step tensor.  The embedded part
is exactly the loop/key/length logic of the source: the `cl_keys` construction
with its three `remove` calls (the third guarded by `estimator is not None`),
the `start_k` offset, the loop `for k in range(start_k, start_k + nsim)` with
`append_data`, and the final `torch.cat` per key (list flatten). -/
def simulate {α : Type} (estimator : Option Estimator)
    (policy_output_keys : List String) (policy_nsteps : ℕ)
    (emulator_output_keys : List String)
    (stepOut : ℕ → String → List α) (nsim : ℕ) :
    Except String (List (String × List α)) := do
  let estKeys ← estimatorOutputKeys estimator
  let keys0 := estKeys ++ policy_output_keys ++ emulator_output_keys
  let keys1 ← removeKey keys0 "reg_error_dynamics"
  let keys2 ← removeKey keys1 "reg_error_policy"
  let cl_keys ← if estimator.isSome then removeKey keys2 "reg_error_estim"
    else Except.ok keys2
  let w ← estimatorWindowSize estimator
  let start_k := if policy_nsteps ≥ w then policy_nsteps else w
  let init : List (String × List (List α)) := cl_keys.map (fun key => (key, []))
  let final := (List.range nsim).foldl
    (fun acc i => append_data acc (stepOut (start_k + i))) init
  Except.ok (final.map (fun kv => (kv.1, kv.2.flatten)))

/-- `ClosedLoopSimulator.rhc`: `key = self.policy.output_keys[0];
policy_out[key] = policy_out[key][[0], :, :]` — the entry at the first policy
output key keeps only index 0 of its leading (time) axis, as a length-one
axis; every other entry is untouched.  (`output_keys[0]` presupposes a
nonempty key list; `headD` matches it on every nonempty list.) -/
def rhc {α : Type} (policy_output_keys : List String)
    (policy_out : List (String × List α)) : List (String × List α) :=
  let key := policy_output_keys.headD ""
  policy_out.map (fun kv => if kv.1 = key then (kv.1, kv.2.take 1) else kv)

end ClosedLoopSimulator

/-- C4: with `policy.nsteps = 2`, `estimator.window_size = 3` and `nsim = 5`,
`simulate(5)` starts the loop at `k = 3` (the larger of 2 and 3), consults the
step models at exactly the five indices `k = 3..7`, retains every output key
except `reg_error_dynamics`, `reg_error_policy` and `reg_error_estim`, and —
whenever every per-step tensor has time length 1, as `rhc` guarantees for the
policy — every retained output sequence has length 5. -/
theorem C4_closed_loop_scenario {α : Type} (stepOut : ℕ → String → List α)
    (hlen : ∀ k key, (stepOut k key).length = 1) :
    ClosedLoopSimulator.simulate
        (some ⟨["x0_estim", "reg_error_estim"], 3⟩)
        ["U_pred_policy", "reg_error_policy"] 2
        ["Y_pred_dynamics", "reg_error_dynamics"] stepOut 5
      = Except.ok
          [("x0_estim",
              ((List.range 5).map fun i => stepOut (3 + i) "x0_estim").flatten),
           ("U_pred_policy",
              ((List.range 5).map fun i => stepOut (3 + i) "U_pred_policy").flatten),
           ("Y_pred_dynamics",
              ((List.range 5).map fun i => stepOut (3 + i) "Y_pred_dynamics").flatten)]
    ∧ ∀ key : String,
        (((List.range 5).map fun i => stepOut (3 + i) key).flatten).length = 5 := by
  constructor
  · rfl
  · intro key
    rw [List.length_flatten]
    simp only [List.map_map, Function.comp_def, hlen]
    decide

/-- Witness for C4: with the constant one-step output `fun _ _ => [0]` the
time-length hypothesis holds and the simulation returns the three retained
keys, each with a length-5 sequence. -/
theorem C4_closed_loop_scenario_witness :
    ClosedLoopSimulator.simulate
        (some ⟨["x0_estim", "reg_error_estim"], 3⟩)
        ["U_pred_policy", "reg_error_policy"] 2
        ["Y_pred_dynamics", "reg_error_dynamics"]
        (fun _ _ => [(0 : ℕ)]) 5
      = Except.ok
          [("x0_estim", [0, 0, 0, 0, 0]),
           ("U_pred_policy", [0, 0, 0, 0, 0]),
           ("Y_pred_dynamics", [0, 0, 0, 0, 0])] :=
  (C4_closed_loop_scenario (fun _ _ => [(0 : ℕ)]) (fun _ _ => rfl)).1

/-- C5: `rhc` preserves the dict size, leaves every entry whose key differs
from the first policy output key unchanged, and replaces the entry at the
first policy output key by the first time step of its sequence (index 0 along
the time axis, kept as a length-one axis). -/
theorem C5_rhc_first_step {α : Type} (policy_output_keys : List String)
    (policy_out : List (String × List α)) :
    ((ClosedLoopSimulator.rhc policy_output_keys policy_out).length
        = policy_out.length)
    ∧ (∀ kv ∈ policy_out, kv.1 ≠ policy_output_keys.headD "" →
        kv ∈ ClosedLoopSimulator.rhc policy_output_keys policy_out)
    ∧ (∀ kv ∈ policy_out, kv.1 = policy_output_keys.headD "" →
        (kv.1, kv.2.take 1) ∈ ClosedLoopSimulator.rhc policy_output_keys policy_out)
    ∧ (∀ kv ∈ policy_out, kv.1 = policy_output_keys.headD "" →
        ∀ (a : α) (l : List α), kv.2 = a :: l →
          (kv.1, [a]) ∈ ClosedLoopSimulator.rhc policy_output_keys policy_out) := by
  refine ⟨by simp [ClosedLoopSimulator.rhc], ?_, ?_, ?_⟩
  · intro kv hkv hne
    unfold ClosedLoopSimulator.rhc
    refine List.mem_map.mpr ⟨kv, hkv, ?_⟩
    exact if_neg hne
  · intro kv hkv heq
    unfold ClosedLoopSimulator.rhc
    refine List.mem_map.mpr ⟨kv, hkv, ?_⟩
    exact if_pos heq
  · intro kv hkv heq a l hl
    unfold ClosedLoopSimulator.rhc
    refine List.mem_map.mpr ⟨kv, hkv, ?_⟩
    exact (if_pos heq).trans (by rw [hl]; rfl)

/-- Witness for C5: on the dict
`{"U_pred_policy": [10, 20], "reg_error_policy": [7]}` with first policy
output key `"U_pred_policy"`, `rhc` keeps only the first time step `[10]` of
the policy entry and leaves the other entry unchanged. -/
theorem C5_rhc_first_step_witness :
    ("U_pred_policy", [10])
        ∈ ClosedLoopSimulator.rhc ["U_pred_policy"]
            [("U_pred_policy", [10, 20]), ("reg_error_policy", [(7 : ℕ)])]
    ∧ ("reg_error_policy", [(7 : ℕ)])
        ∈ ClosedLoopSimulator.rhc ["U_pred_policy"]
            [("U_pred_policy", [10, 20]), ("reg_error_policy", [(7 : ℕ)])] :=
  ⟨(C5_rhc_first_step ["U_pred_policy"]
        [("U_pred_policy", [10, 20]), ("reg_error_policy", [(7 : ℕ)])]).2.2.2
      ("U_pred_policy", [10, 20]) (by decide) rfl 10 [20] rfl,
    (C5_rhc_first_step ["U_pred_policy"]
        [("U_pred_policy", [10, 20]), ("reg_error_policy", [(7 : ℕ)])]).2.1
      ("reg_error_policy", [(7 : ℕ)]) (by decide) (by decide)⟩

/-- C6: when the simulator is constructed with `estimator = None`, the claim
says `simulate` skips the estimator-specific steps and completes normally; on
the code, however, `simulate` reads `self.estimator.output_keys` (and later
`self.estimator.window_size`) unconditionally, so it raises `AttributeError`
immediately, for every nsim and every policy/emulator configuration. -/
theorem C6_estimator_none_attribute_error {α : Type}
    (policy_output_keys : List String) (policy_nsteps : ℕ)
    (emulator_output_keys : List String) (stepOut : ℕ → String → List α)
    (nsim : ℕ) :
    ClosedLoopSimulator.simulate none policy_output_keys policy_nsteps
        emulator_output_keys stepOut nsim
      = Except.error
          "AttributeError: NoneType object has no attribute output_keys" :=
  rfl

namespace MultiSequenceOpenLoopSimulator

/-- Model of a PyTorch tensor: its shape and its row-major flat data. -/
structure Tensor (α : Type) where
  shape : List ℕ
  data : List α
deriving DecidableEq

/-- A value held in a simulator output dict: a name string or a tensor
(scalars are 0-dimensional tensors). -/
inductive Entry (α : Type) where
  | str (s : String)
  | tens (t : Tensor α)
deriving DecidableEq

/-- The result of aggregating one key: either the accumulated list left
untouched (`continue` on string-valued keys) or an aggregated tensor. -/
inductive AggResult (α : Type) where
  | raw (vals : List (Entry α))
  | tens (t : Tensor α)
deriving DecidableEq

/-- `torch.stack`: a new leading axis of length `len(ts)` over tensors of a
common shape. -/
def stackT {α : Type} (ts : List (Tensor α)) : Tensor α :=
  ⟨ts.length :: (ts.headD ⟨[], []⟩).shape, (ts.map Tensor.data).flatten⟩

/-- `torch.cat` along the leading axis of tensors agreeing on the remaining
axes. -/
def catT {α : Type} (ts : List (Tensor α)) : Tensor α :=
  ⟨(ts.map (fun t => t.shape.headD 0)).sum :: (ts.headD ⟨[], []⟩).shape.tail,
    (ts.map Tensor.data).flatten⟩

/-- `torch.mean`: the 0-dimensional mean of all entries. -/
def meanT {α : Type} [DivisionRing α] (t : Tensor α) : Tensor α :=
  ⟨[], [t.data.sum / (t.data.length : α)]⟩

/-- The tensor held by an entry (the string case is never reached on the
tensor branch of `agg`, which only runs when the first value is a tensor and
the dicts are homogeneously typed as `torch` requires). -/
def getTensor {α : Type} : Entry α → Tensor α
  | .str _ => ⟨[], []⟩
  | .tens t => t

/-- The per-key branch of `agg`: `if type(agg_outputs[k][0]) == str: continue`
(the accumulated list is left as-is); otherwise
`if len(agg_outputs[k][0].shape) < 2: torch.mean(torch.stack(...))`, else
`torch.stack(...)` when `self.stack` and `torch.cat(...)` otherwise. -/
def aggValue {α : Type} [DivisionRing α] (stack : Bool) (vals : List (Entry α)) :
    AggResult α :=
  match vals with
  | [] => .raw []
  | .str _ :: _ => .raw vals
  | .tens t0 :: _ =>
    let ts := vals.map getTensor
    if t0.shape.length < 2 then .tens (meanT (stackT ts))
    else if stack then .tens (stackT ts) else .tens (catT ts)

/-- `MultiSequenceOpenLoopSimulator.agg`: the keys come from `outputs[0]`, the
per-key value lists collect `data[k]` over all dicts (`data[k]` raises on a
missing key, so the dicts are modelled as total functions), and each list is
aggregated by `aggValue`. -/
def agg {α : Type} [DivisionRing α] (stack : Bool) (keys : List String)
    (outputs : List (String → Entry α)) : List (String × AggResult α) :=
  keys.map (fun k => (k, aggValue stack (outputs.map (fun d => d k))))

end MultiSequenceOpenLoopSimulator

/-- C7: `agg` on two 0-dimensional (scalar) dicts `{"loss": 1.0}` and
`{"loss": 3.0}` yields the mean `{"loss": 2.0}`; on two dicts holding
`(5,3)`-shaped tensors it yields a `(10,3)` concatenation when `stack = false`
and a `(2,5,3)` stack when `stack = true` (with the 30 data entries of the
two 15-entry tensors concatenated); and in general a tensor value list whose
entries have fewer than 2 dimensions is averaged across the sequence while
higher-dimensional entries are concatenated, or stacked along a new leading
axis when so configured. -/
theorem C7_agg_mean_cat_stack (v1 v2 : List ℝ)
    (h1 : v1.length = 15) (h2 : v2.length = 15) :
    MultiSequenceOpenLoopSimulator.agg false ["loss"]
        [fun _ => .tens ⟨[], [(1 : ℝ)]⟩, fun _ => .tens ⟨[], [(3 : ℝ)]⟩]
      = [("loss", .tens ⟨[], [(2 : ℝ)]⟩)]
    ∧ MultiSequenceOpenLoopSimulator.agg false ["Y"]
        [fun _ => .tens ⟨[5, 3], v1⟩, fun _ => .tens ⟨[5, 3], v2⟩]
      = [("Y", .tens ⟨[10, 3], v1 ++ v2⟩)]
    ∧ MultiSequenceOpenLoopSimulator.agg true ["Y"]
        [fun _ => .tens ⟨[5, 3], v1⟩, fun _ => .tens ⟨[5, 3], v2⟩]
      = [("Y", .tens ⟨[2, 5, 3], v1 ++ v2⟩)]
    ∧ (v1 ++ v2).length = 30
    ∧ (∀ (stack : Bool) (t0 : MultiSequenceOpenLoopSimulator.Tensor ℝ)
        (rest : List (MultiSequenceOpenLoopSimulator.Entry ℝ)),
        t0.shape.length < 2 →
          MultiSequenceOpenLoopSimulator.aggValue stack (.tens t0 :: rest)
            = .tens (MultiSequenceOpenLoopSimulator.meanT
                (MultiSequenceOpenLoopSimulator.stackT
                  ((MultiSequenceOpenLoopSimulator.Entry.tens t0 :: rest).map
                    MultiSequenceOpenLoopSimulator.getTensor))))
    ∧ (∀ (t0 : MultiSequenceOpenLoopSimulator.Tensor ℝ)
        (rest : List (MultiSequenceOpenLoopSimulator.Entry ℝ)),
        2 ≤ t0.shape.length →
          MultiSequenceOpenLoopSimulator.aggValue false (.tens t0 :: rest)
              = .tens (MultiSequenceOpenLoopSimulator.catT
                  ((MultiSequenceOpenLoopSimulator.Entry.tens t0 :: rest).map
                    MultiSequenceOpenLoopSimulator.getTensor))
            ∧ MultiSequenceOpenLoopSimulator.aggValue true (.tens t0 :: rest)
              = .tens (MultiSequenceOpenLoopSimulator.stackT
                  ((MultiSequenceOpenLoopSimulator.Entry.tens t0 :: rest).map
                    MultiSequenceOpenLoopSimulator.getTensor))) := by
  refine ⟨?_, ?_, ?_, ?_, ?_, ?_⟩
  · norm_num [MultiSequenceOpenLoopSimulator.agg,
      MultiSequenceOpenLoopSimulator.aggValue,
      MultiSequenceOpenLoopSimulator.meanT,
      MultiSequenceOpenLoopSimulator.stackT,
      MultiSequenceOpenLoopSimulator.getTensor]
  · simp [MultiSequenceOpenLoopSimulator.agg,
      MultiSequenceOpenLoopSimulator.aggValue,
      MultiSequenceOpenLoopSimulator.catT,
      MultiSequenceOpenLoopSimulator.getTensor]
  · simp [MultiSequenceOpenLoopSimulator.agg,
      MultiSequenceOpenLoopSimulator.aggValue,
      MultiSequenceOpenLoopSimulator.stackT,
      MultiSequenceOpenLoopSimulator.getTensor]
  · simp [h1, h2]
  · intro stack t0 rest h
    simp [MultiSequenceOpenLoopSimulator.aggValue, h]
  · intro t0 rest h
    constructor
    · simp [MultiSequenceOpenLoopSimulator.aggValue, Nat.not_lt.mpr h]
    · simp [MultiSequenceOpenLoopSimulator.aggValue, Nat.not_lt.mpr h]

/-- Witness for C7: at the concrete `(5,3)` data `v1 = v2 = replicate 15 0`,
the length hypotheses hold and `agg` produces the mean for the scalar dicts
and the `(10,3)` concatenation for the tensor dicts. -/
theorem C7_agg_mean_cat_stack_witness :
    MultiSequenceOpenLoopSimulator.agg false ["loss"]
        [fun _ => .tens ⟨[], [(1 : ℝ)]⟩, fun _ => .tens ⟨[], [(3 : ℝ)]⟩]
      = [("loss", .tens ⟨[], [(2 : ℝ)]⟩)]
    ∧ MultiSequenceOpenLoopSimulator.agg false ["Y"]
        [fun _ => .tens ⟨[5, 3], List.replicate 15 (0 : ℝ)⟩,
         fun _ => .tens ⟨[5, 3], List.replicate 15 (0 : ℝ)⟩]
      = [("Y", .tens ⟨[10, 3],
          List.replicate 15 (0 : ℝ) ++ List.replicate 15 (0 : ℝ)⟩)] :=
  ⟨(C7_agg_mean_cat_stack (List.replicate 15 0) (List.replicate 15 0)
      (by simp) (by simp)).1,
    (C7_agg_mean_cat_stack (List.replicate 15 0) (List.replicate 15 0)
      (by simp) (by simp)).2.1⟩
